import Mathlib

/-!
Shallow embedding of the expense-tracker repository
(src/expense_tracker.py and src/expense_tracker2.py).

Machine-level conventions of the embedding:
* Python `Decimal` and `float` values are modelled by `PyNum`: an exact
  rational for finite values, plus the `NaN` and signed-infinity special
  values their grammars accept.  The store's `NUMERIC(_,2)` column is
  modelled as an integer number of cents, with round-half-away-from-zero
  quantisation on insert (PostgreSQL `numeric` rounding); a non-finite
  amount is modelled as a failing insert (see `add_expense`).
* Python `datetime` values are modelled by the `DT` structure of civil
  fields (year, month, day, hour, minute, second, microsecond); an
  offset-aware datetime is a `DTZ` (civil fields plus a UTC offset in
  seconds, as `%z` offsets carry seconds).  The database column
  `TIMESTAMPTZ` stores the corresponding instant; it is modelled by the
  UTC civil fields, and instants are compared through the mixed-radix key
  `dtKey`.
* CSV files are modelled as lists of rows of cells (`List (List String)`);
  the `csv` module's quoting is assumed correct, so cell contents are
  arbitrary strings.
-/

attribute [local semireducible] Rat.add Rat.mul Rat.sub Rat.inv String.ltb

/-- ASCII digit character for a digit value `n ≤ 9`. -/
def digitChar (n : Nat) : Char := Char.ofNat (48 + n)

/-- Is `c` an ASCII digit `'0'..'9'`? -/
def isDigitC (c : Char) : Bool := 48 ≤ c.toNat && c.toNat ≤ 57

/-- Digit value of an ASCII digit character. -/
def digitVal (c : Char) : Nat := c.toNat - 48

/-- Digit-list worker with a structural fuel argument (the number itself
bounds the digit count), so that the definition reduces definitionally;
at fuel 0 the remaining value is a single digit. -/
def natDigitsFuel : Nat → Nat → List Char
  | 0, n => [digitChar n]
  | fuel + 1, n =>
    if n < 10 then [digitChar n] else natDigitsFuel fuel (n / 10) ++ [digitChar (n % 10)]

/-- Decimal digit characters of a natural number, most significant first,
no leading zeros (`str(n)` in Python). -/
def natDigits (n : Nat) : List Char := natDigitsFuel n n

/-- Value of a digit-character list, most significant first. -/
def digitsVal (ds : List Char) : Nat :=
  ds.foldl (fun a c => a * 10 + digitVal c) 0

/-- Zero-padded fixed-width decimal print (`"%0*d"`), assuming the number
fits in `w` digits. -/
def padDigits (w n : Nat) : List Char :=
  List.replicate (w - (natDigits n).length) '0' ++ natDigits n

/-- `str(n)` for a natural number. -/
def natToStr (n : Nat) : String := String.mk (natDigits n)

/-- Greedy longest run of leading digit characters, with the rest. -/
def takeDigits : List Char → (List Char × List Char)
  | [] => ([], [])
  | c :: cs =>
    if isDigitC c then
      let p := takeDigits cs
      (c :: p.1, p.2)
    else ([], c :: cs)

/-- Greedy run of at most `k` leading digit characters (as `strptime`
field matching does), with the rest. -/
def takeDigitsUpTo : Nat → List Char → (List Char × List Char)
  | 0, cs => ([], cs)
  | _ + 1, [] => ([], [])
  | k + 1, c :: cs =>
    if isDigitC c then
      let p := takeDigitsUpTo k cs
      (c :: p.1, p.2)
    else ([], c :: cs)

/-- Parse 1 to `k` digits greedily; `none` if the input does not start
with a digit. -/
def parseNumUpTo (k : Nat) (cs : List Char) : Option (Nat × List Char) :=
  let p := takeDigitsUpTo k cs
  if p.1 = [] then none else some (digitsVal p.1, p.2)

/-- Parse exactly `k` digits (a `strptime` fixed-width field such as
`\d\d\d\d` for `%Y`): the greedy run must reach the full width. -/
def parseDigitsExact (k : Nat) (cs : List Char) : Option (Nat × List Char) :=
  let p := takeDigitsUpTo k cs
  if p.1.length = k then some (digitsVal p.1, p.2) else none

/-- Expect a literal character. -/
def expectC (c : Char) : List Char → Option (List Char)
  | [] => none
  | x :: xs => if x = c then some xs else none

/-- A civil (calendar) datetime: year, month, day, hour, minute, second,
microsecond.  Naive `datetime` values and the UTC civil form of stored
instants are both represented this way. -/
structure DT where
  y : Nat
  m : Nat
  d : Nat
  hh : Nat
  mi : Nat
  ss : Nat
  us : Nat
deriving DecidableEq, Repr

/-- An offset-aware datetime: civil fields plus UTC offset in seconds
(`timezone(timedelta(seconds=off))`; `strptime`'s `%z` offsets carry a
seconds component). -/
structure DTZ where
  dt : DT
  off : Int
deriving DecidableEq, Repr

/-- Gregorian leap year. -/
def isLeap (y : Nat) : Bool := y % 4 = 0 && (y % 100 ≠ 0 || y % 400 = 0)

/-- Days in a month of the proleptic Gregorian calendar. -/
def daysInMonth (y m : Nat) : Nat :=
  if m = 2 then (if isLeap y then 29 else 28)
  else if m = 4 || m = 6 || m = 9 || m = 11 then 30
  else 31

/-- The field ranges `datetime` enforces (year 1..9999 etc.). -/
def ValidDT (t : DT) : Prop :=
  1 ≤ t.y ∧ t.y ≤ 9999 ∧ 1 ≤ t.m ∧ t.m ≤ 12 ∧ 1 ≤ t.d ∧ t.d ≤ daysInMonth t.y t.m ∧
  t.hh ≤ 23 ∧ t.mi ≤ 59 ∧ t.ss ≤ 59 ∧ t.us ≤ 999999

instance (t : DT) : Decidable (ValidDT t) := by unfold ValidDT; infer_instance

/-- Days since 1970-01-01 of a civil date (Howard Hinnant's
`days_from_civil`). -/
def civilToDays (y m d : Nat) : Int :=
  let y' : Int := if m ≤ 2 then (y : Int) - 1 else (y : Int)
  let era : Int := Int.fdiv y' 400
  let yoe : Nat := (y' - era * 400).toNat
  let mp : Nat := if m ≤ 2 then m + 9 else m - 3
  let doy : Nat := (153 * mp + 2) / 5 + d - 1
  let doe : Nat := yoe * 365 + yoe / 4 - yoe / 100 + doy
  era * 146097 + (doe : Int) - 719468

/-- Civil date from days since 1970-01-01 (Howard Hinnant's
`civil_from_days`); the year is an integer (may fall outside 1..9999). -/
def civilFromDays (z0 : Int) : Int × Nat × Nat :=
  let z : Int := z0 + 719468
  let era : Int := Int.fdiv z 146097
  let doe : Nat := (z - era * 146097).toNat
  let yoe : Nat := (doe - doe / 1460 + doe / 36524 - doe / 146096) / 365
  let doy : Nat := doe - (365 * yoe + yoe / 4 - yoe / 100)
  let mp : Nat := (5 * doy + 2) / 153
  let d : Nat := doy - (153 * mp + 2) / 5 + 1
  let m : Nat := if mp < 10 then mp + 3 else mp - 9
  (era * 400 + (yoe : Int) + (if m ≤ 2 then 1 else 0), m, d)

/-- Mixed-radix chronological key of a UTC civil datetime: for field
values within their calendar ranges, `dtKey a ≤ dtKey b` iff `a` is not
later than `b`.  This models comparison of `TIMESTAMPTZ` instants. -/
def dtKey (t : DT) : Nat :=
  ((((((t.y * 16 + t.m) * 32 + t.d) * 32 + t.hh) * 64 + t.mi) * 64 + t.ss) * 1000000 + t.us)

/-- Normalise an offset-aware datetime to its UTC civil form (the instant
stored by the `TIMESTAMPTZ` column).  A zero offset leaves the fields
unchanged; any other offset is shifted through the epoch-day form. -/
def normTZ (z : DTZ) : DT :=
  if z.off = 0 then z.dt
  else
    let t := z.dt
    let totalSec : Int := (t.hh * 3600 + t.mi * 60 + t.ss : Nat) - z.off
    let dShift : Int := Int.fdiv totalSec 86400
    let rem : Nat := (totalSec - dShift * 86400).toNat
    let days : Int := civilToDays t.y t.m t.d + dShift
    let c := civilFromDays days
    ⟨c.1.toNat, c.2.1, c.2.2, rem / 3600, rem % 3600 / 60, rem % 60, t.us⟩

/-- Chronological key of an offset-aware datetime. -/
def instKey (z : DTZ) : Nat := dtKey (normTZ z)

/-- The instant a record is stored with: the normalised supplied datetime
when present, otherwise the database default `now()`. -/
def resolveCreated (z : Option DTZ) (now : DT) : DT :=
  match z with
  | some zz => normTZ zz
  | none => now

/-- `datetime.fromtimestamp(ts, tz=timezone.utc)`: UTC civil datetime of
an epoch timestamp in seconds; `none` when the year falls outside
`datetime`'s 1..9999 range (`OverflowError`/`ValueError`).  Fractional
seconds are rounded to whole microseconds. -/
def fromTimestampUTC (q : Rat) : Option DT :=
  let usTotal : Int := Rat.floor (q * 1000000 + 1 / 2)
  let sec : Int := Int.fdiv usTotal 1000000
  let us : Nat := (usTotal - sec * 1000000).toNat
  let days : Int := Int.fdiv sec 86400
  let sod : Nat := (sec - days * 86400).toNat
  let c := civilFromDays days
  if 1 ≤ c.1 ∧ c.1 ≤ 9999 then
    some ⟨c.1.toNat, c.2.1, c.2.2, sod / 3600, sod % 3600 / 60, sod % 60, us⟩
  else none

/-- Whitespace characters stripped by `float()`/`Decimal()`. -/
def isWs (c : Char) : Bool := c = ' ' || c = '\t' || c = '\n' || c = '\r' || c = '\x0b' || c = '\x0c'

/-- Strip leading and trailing whitespace. -/
def trimWs (cs : List Char) : List Char :=
  ((cs.dropWhile isWs).reverse.dropWhile isWs).reverse

/-- Split an optional leading sign: `(isNegative, rest)`. -/
def signSplit (cs : List Char) : Bool × List Char :=
  match cs with
  | c :: rest => if c = '-' then (true, rest) else if c = '+' then (false, rest) else (false, cs)
  | [] => (false, cs)

/-- Integer power of ten as a rational. -/
def pow10 (e : Int) : Rat :=
  if 0 ≤ e then ((10 : Rat) ^ e.toNat) else 1 / ((10 : Rat) ^ (-e).toNat)

/-- Parse the optional exponent tail of a numeric literal
(`e`/`E`, optional sign, digits, end of input); `some 0` on empty input. -/
def parseExpTail : List Char → Option Int
  | [] => some 0
  | c :: cs =>
    if c = 'e' || c = 'E' then
      let s := signSplit cs
      let p := takeDigits s.2
      if p.1 = [] || !p.2.isEmpty then none
      else some (if s.1 then -(digitsVal p.1 : Int) else (digitsVal p.1 : Int))
    else none

/-- A value of Python's `Decimal(text)` or `float(text)`: a finite exact
rational, `NaN` (quiet and signalling collapsed: both make comparisons
signal), or a signed infinity. -/
inductive PyNum where
  | fin : Rat → PyNum
  | nan : PyNum
  | pinf : PyNum
  | ninf : PyNum
deriving DecidableEq, Repr

/-- ASCII lower-casing of a character (both grammars match their special
words case-insensitively). -/
def toLowerC (c : Char) : Char :=
  if 65 ≤ c.toNat && c.toNat ≤ 90 then Char.ofNat (c.toNat + 32) else c

/-- Match a fixed lowercase word case-insensitively, returning what
follows it. -/
def matchWordCI : List Char → List Char → Option (List Char)
  | [], cs => some cs
  | _ :: _, [] => none
  | p :: ps, c :: cs => if toLowerC c = p then matchWordCI ps cs else none

/-- The special-value words after an optional sign: `Infinity`/`Inf` and
`NaN` (for `Decimal` also `sNaN`, and an optional digit payload after the
`NaN` word).  `some true` is a NaN, `some false` an infinity, `none`
neither. -/
def specialTail (allowPayload allowSNaN : Bool) (cs : List Char) : Option Bool :=
  match matchWordCI ['i', 'n', 'f', 'i', 'n', 'i', 't', 'y'] cs with
  | some [] => some false
  | _ =>
    match matchWordCI ['i', 'n', 'f'] cs with
    | some [] => some false
    | _ =>
      match matchWordCI ['n', 'a', 'n'] cs with
      | some rest =>
        if rest = [] || (allowPayload && rest.all isDigitC) then some true else none
      | none =>
        if allowSNaN then
          match matchWordCI ['s', 'n', 'a', 'n'] cs with
          | some rest =>
            if rest = [] || (allowPayload && rest.all isDigitC) then some true else none
          | none => none
        else none

/-- The unsigned finite-number magnitude both grammars share: digits with
an optional fraction (at least one digit overall), then an optional
exponent ending the input. -/
def numericMag (cs : List Char) : Option Rat :=
  let ip := takeDigits cs
  match ip.2 with
  | '.' :: cs2 =>
    let fp := takeDigits cs2
    if ip.1 = [] && fp.1 = [] then none
    else
      (parseExpTail fp.2).map (fun e =>
        ((digitsVal ip.1 : Rat) + (digitsVal fp.1 : Rat) / (10 : Rat) ^ fp.1.length) * pow10 e)
  | rest =>
    if ip.1 = [] then none
    else (parseExpTail rest).map (fun e => (digitsVal ip.1 : Rat) * pow10 e)

/-- The numeric grammar shared by `Decimal(text)` and `float(text)` after
their whitespace/underscore preprocessing: optional sign, then either a
special-value word or a finite magnitude. -/
def numCore (allowPayload allowSNaN : Bool) (cs : List Char) : Option PyNum :=
  let s := signSplit cs
  match specialTail allowPayload allowSNaN s.2 with
  | some true => some .nan
  | some false => some (if s.1 then .ninf else .pinf)
  | none => (numericMag s.2).map (fun m => .fin (if s.1 then -m else m))

/-- Remove every underscore (`Decimal` deletes `_` wherever it occurs
before parsing, so even `"In_f"` and `"1_"` are accepted). -/
def stripUnders (cs : List Char) : List Char := cs.filter (fun c => c ≠ '_')

/-- `float`'s underscore rule: every `_` must sit between two digits
(`prev` is the character before the current position). -/
def undersOk : Option Char → List Char → Bool
  | _, [] => true
  | prev, c :: rest =>
    if c = '_' then
      (match prev with | some p => isDigitC p | none => false) &&
        (match rest with | d :: _ => isDigitC d | [] => false) &&
        undersOk (some c) rest
    else undersOk (some c) rest

/-- `Decimal(s)`: strip whitespace, delete all underscores, then the
signed grammar with `NaN`/`sNaN` (digit payload allowed) and
`Inf`/`Infinity`, case-insensitively; `none` models `InvalidOperation`. -/
def pyDecimal (s : String) : Option PyNum :=
  numCore true true (stripUnders (trimWs s.data))

/-- `float(s)`: strip whitespace, underscores only between digits, then
the signed grammar with `inf`/`infinity`/`nan` (no payload, no `snan`);
`none` models `ValueError`. -/
def pyFloat (s : String) : Option PyNum :=
  let cs := trimWs s.data
  if undersOk none cs then numCore false false (stripUnders cs) else none

/-- `%d` day-of-month field: one or two digits, or `strptime`'s
space-padded alternative — a single space followed by one nonzero
digit. -/
def parseDay : List Char → Option (Nat × List Char)
  | [] => none
  | c :: rest =>
    if c = ' ' then
      match rest with
      | d :: rest2 => if isDigitC d && d ≠ '0' then some (digitVal d, rest2) else none
      | [] => none
    else parseNumUpTo 2 (c :: rest)

/-- Date-part parser `%Y-%m-%d`: `%Y` matches exactly four digits, `%m`
one or two digits, `%d` one or two digits or the space-padded form. -/
def parseYMD (cs : List Char) : Option ((Nat × Nat × Nat) × List Char) := do
  let (yv, cs) ← parseDigitsExact 4 cs
  let cs ← expectC '-' cs
  let (mv, cs) ← parseNumUpTo 2 cs
  let cs ← expectC '-' cs
  let (dv, cs) ← parseDay cs
  return ((yv, mv, dv), cs)

/-- Time-part parser `%H:%M:%S`. -/
def parseHMS (cs : List Char) : Option ((Nat × Nat × Nat) × List Char) := do
  let (hv, cs) ← parseNumUpTo 2 cs
  let cs ← expectC ':' cs
  let (mv, cs) ← parseNumUpTo 2 cs
  let cs ← expectC ':' cs
  let (sv, cs) ← parseNumUpTo 2 cs
  return ((hv, mv, sv), cs)

/-- The optional fractional-second part of a `%z` seconds field: a dot
followed by one to six digits (the value is sub-second and dropped from
the whole-second offset).  Without a dot nothing is consumed. -/
def parseFrac : List Char → Option (List Char)
  | '.' :: rest =>
    let p := takeDigits rest
    if p.1 ≠ [] && p.1.length ≤ 6 then some p.2 else none
  | cs => some cs

/-- `%z` offset parser: uppercase `Z`, or a sign, exactly two-digit
hours, an optional colon, exactly two-digit minutes `≤ 59`, then an
optional seconds field `≤ 59` (with fraction) whose separator use must be
consistent with the hour-minute separator — a malformed or inconsistent
seconds part is left unconsumed (and then fails the format's
end-of-input check, as `strptime` rejects it).  The total offset must be
strictly below 24 hours.  Result in seconds east of UTC. -/
def parseTZ : List Char → Option (Int × List Char)
  | [] => none
  | c :: rest =>
    if c = 'Z' then some (0, rest)
    else if c = '+' || c = '-' then
      match parseDigitsExact 2 rest with
      | none => none
      | some (hv, cs0) =>
        let colon : Bool := match cs0 with | ':' :: _ => true | _ => false
        let cs1 := if colon then cs0.tail else cs0
        match parseDigitsExact 2 cs1 with
        | none => none
        | some (mv, cs2) =>
          if 59 < mv then none
          else
            let secPart : Option (Nat × List Char) :=
              match (if colon then
                      match cs2 with
                      | ':' :: cs3 => parseDigitsExact 2 cs3
                      | _ => none
                    else parseDigitsExact 2 cs2) with
              | some (sv, cs4) =>
                if 59 < sv then none
                else match parseFrac cs4 with
                  | some cs5 => some (sv, cs5)
                  | none => none
              | none => none
            let svcs : Nat × List Char := match secPart with
              | some p => p
              | none => (0, cs2)
            let total : Nat := hv * 3600 + mv * 60 + svcs.1
            if total < 86400 then
              some ((if c = '-' then -(total : Int) else (total : Int)), svcs.2)
            else none
    else none

/-- The calendar/clock field validation performed by `datetime.strptime`
when it builds the `datetime` (month, day-of-month, hour, minute,
second ranges; years 1..9999). -/
def validYMDHMS (yv mv dv hv miv sv : Nat) : Bool :=
  1 ≤ yv && yv ≤ 9999 && 1 ≤ mv && mv ≤ 12 && 1 ≤ dv && dv ≤ daysInMonth yv mv &&
    hv ≤ 23 && miv ≤ 59 && sv ≤ 59

/-- `strptime(s, "%Y-%m-%dT%H:%M:%S%z")`. -/
def fmtOffsetChars (cs : List Char) : Option DTZ := do
  let (ymd, cs) ← parseYMD cs
  let cs ← expectC 'T' cs
  let (hms, cs) ← parseHMS cs
  let (off, cs) ← parseTZ cs
  if cs.isEmpty && validYMDHMS ymd.1 ymd.2.1 ymd.2.2 hms.1 hms.2.1 hms.2.2 then
    some ⟨⟨ymd.1, ymd.2.1, ymd.2.2, hms.1, hms.2.1, hms.2.2, 0⟩, off⟩
  else none

/-- `strptime(s, "%Y-%m-%dT%H:%M:%S")` (naive). -/
def fmtTChars (cs : List Char) : Option DT := do
  let (ymd, cs) ← parseYMD cs
  let cs ← expectC 'T' cs
  let (hms, cs) ← parseHMS cs
  if cs.isEmpty && validYMDHMS ymd.1 ymd.2.1 ymd.2.2 hms.1 hms.2.1 hms.2.2 then
    some ⟨ymd.1, ymd.2.1, ymd.2.2, hms.1, hms.2.1, hms.2.2, 0⟩
  else none

/-- `strptime(s, "%Y-%m-%d %H:%M:%S")` (naive). -/
def fmtSpaceChars (cs : List Char) : Option DT := do
  let (ymd, cs) ← parseYMD cs
  let cs ← expectC ' ' cs
  let (hms, cs) ← parseHMS cs
  if cs.isEmpty && validYMDHMS ymd.1 ymd.2.1 ymd.2.2 hms.1 hms.2.1 hms.2.2 then
    some ⟨ymd.1, ymd.2.1, ymd.2.2, hms.1, hms.2.1, hms.2.2, 0⟩
  else none

/-- `strptime(s, "%Y-%m-%d")` (date only, midnight). -/
def fmtDateChars (cs : List Char) : Option DT := do
  let (ymd, cs) ← parseYMD cs
  if cs.isEmpty && validYMDHMS ymd.1 ymd.2.1 ymd.2.2 0 0 0 then
    some ⟨ymd.1, ymd.2.1, ymd.2.2, 0, 0, 0, 0⟩
  else none

/-- Format 1 of `parse_date`: offset-aware ISO 8601. -/
def tryFmt1 (s : String) : Option DTZ := fmtOffsetChars s.data

/-- Format 2 of `parse_date`: naive ISO 8601 with `T`. -/
def tryFmt2 (s : String) : Option DT := fmtTChars s.data

/-- Format 3 of `parse_date`: naive `YYYY-MM-DD HH:MM:SS`. -/
def tryFmt3 (s : String) : Option DT := fmtSpaceChars s.data

/-- Format 4 of `parse_date`: date only. -/
def tryFmt4 (s : String) : Option DT := fmtDateChars s.data

/-- Format 5 of `parse_date`: the `float`/`fromtimestamp` fallback.  A
non-finite float makes `fromtimestamp` raise (`OverflowError` /
`ValueError`), which the catch-all handler turns into the same
failure. -/
def tryFmt5 (s : String) : Option DT :=
  (pyFloat s).bind (fun v =>
    match v with
    | .fin q => fromTimestampUTC q
    | _ => none)

/-- Error kinds raised by the parsing layer. -/
inductive PErr where
  | invalidDate
  | invalidAmount
  | invalidPeriod
deriving DecidableEq, Repr

/-- Decidable equality of `Except` results (component-wise). -/
def exceptDecEq {e a : Type} [DecidableEq e] [DecidableEq a] : DecidableEq (Except e a) :=
  fun x y =>
    match x, y with
    | .ok v, .ok w =>
      match decEq v w with
      | isTrue h => isTrue (h ▸ rfl)
      | isFalse h => isFalse (fun hh => h (Except.ok.inj hh))
    | .error v, .error w =>
      match decEq v w with
      | isTrue h => isTrue (h ▸ rfl)
      | isFalse h => isFalse (fun hh => h (Except.error.inj hh))
    | .ok _, .error _ => isFalse (fun hh => Except.noConfusion hh)
    | .error _, .ok _ => isFalse (fun hh => Except.noConfusion hh)

instance {e a : Type} [DecidableEq e] [DecidableEq a] : DecidableEq (Except e a) := exceptDecEq

/-- `parse_date` of src/expense_tracker.py: `None`/empty input yields no
date; otherwise the four `strptime` formats are tried in order (naive
results get `tzinfo=timezone.utc`), then the Unix-timestamp fallback;
`ValueError` (modelled `PErr.invalidDate`) if none matches. -/
def parse_date (s : Option String) : Except PErr (Option DTZ) :=
  match s with
  | none => .ok none
  | some s =>
    if s = "" then .ok none
    else
      match tryFmt1 s with
      | some z => .ok (some z)
      | none =>
        match tryFmt2 s with
        | some t => .ok (some ⟨t, 0⟩)
        | none =>
          match tryFmt3 s with
          | some t => .ok (some ⟨t, 0⟩)
          | none =>
            match tryFmt4 s with
            | some t => .ok (some ⟨t, 0⟩)
            | none =>
              match tryFmt5 s with
              | some t => .ok (some ⟨t, 0⟩)
              | none => .error .invalidDate

/-- Round half away from zero (PostgreSQL `numeric` rounding). -/
def roundHalfAway (q : Rat) : Int :=
  if 0 ≤ q then Rat.floor (q + 1 / 2) else -(Rat.floor (-q + 1 / 2))

/-- Quantisation of an exact amount to the store's `NUMERIC(_,2)` column,
in cents. -/
def toCents (q : Rat) : Int := roundHalfAway (q * 100)

/-- `str(Decimal)` of a scale-2 amount stored as cents (`"12.50"`,
`"-3.05"`, `"0.50"`). -/
def centsChars (a : Int) : List Char :=
  (if a < 0 then ['-'] else []) ++ natDigits (a.natAbs / 100) ++ '.' :: padDigits 2 (a.natAbs % 100)

/-- String form of `centsChars`. -/
def centsStr (a : Int) : String := String.mk (centsChars a)

/-- `datetime.isoformat()` of a stored instant as psycopg2 returns it in
a UTC session: `YYYY-MM-DDTHH:MM:SS[.ffffff]+00:00`, the fractional part
present exactly when the microsecond field is nonzero. -/
def isoChars (t : DT) : List Char :=
  padDigits 4 t.y ++ '-' :: padDigits 2 t.m ++ '-' :: padDigits 2 t.d ++
    'T' :: padDigits 2 t.hh ++ ':' :: padDigits 2 t.mi ++ ':' :: padDigits 2 t.ss ++
    (if t.us = 0 then [] else '.' :: padDigits 6 t.us) ++ ['+', '0', '0', ':', '0', '0']

/-- String form of `isoChars`. -/
def isoStr (t : DT) : String := String.mk (isoChars t)

/-- A stored expense record (`expenses` table row): id, amount in cents
(`NUMERIC(_,2)`), category, description, and the `created_at` instant in
UTC civil form. -/
structure Expense where
  eid : Nat
  amount : Int
  category : String
  description : String
  created_at : DT
deriving DecidableEq, Repr

/-- The record store: the next `SERIAL` id and the table rows. -/
structure Store where
  nextId : Nat
  rows : List Expense
deriving DecidableEq, Repr

/-- A fresh store (`SERIAL` ids start at 1). -/
def Store.empty : Store := ⟨1, []⟩

/-- Sum of the amounts of a list of records (exact, in cents). -/
def sumAmounts (l : List Expense) : Int := (l.map (·.amount)).sum

/-- `add_expense` of src/expense_tracker.py: one `INSERT`, quantising the
amount to the column scale; when `created_at` is absent the database
default `now()` is used (passed here as `now`).  The function itself
validates nothing, but the schema does: `category VARCHAR(120)` rejects a
longer string, and `amount NUMERIC(12,2)` rejects a rounded value of 13
or more digits — `none` models the raised database error (the import
loop's per-row handler then skips the row without counting it).
PostgreSQL's `numeric` can also store `NaN` (and, in recent versions,
infinities), which the integer-cent store cannot represent; a non-finite
amount is therefore modelled as a failing insert, and every theorem that
relies on insert success restricts itself to finite amounts. -/
def add_expense (st : Store) (amount : PyNum) (category description : String)
    (created : Option DTZ) (now : DT) : Option Store :=
  match amount with
  | .fin q =>
    if category.length ≤ 120 && (toCents q).natAbs ≤ 999999999999 then
      some ⟨st.nextId + 1, st.rows ++
        [⟨st.nextId, toCents q, category, description, resolveCreated created now⟩]⟩
    else none
  | _ => none

/-- One optional date filter argument as the query builders treat it:
`None` and `""` are falsy and add no clause; otherwise the text goes
through `parse_date` and the clause compares instants.  The result is
the instant key of the bound, when present. -/
def parseFilterArg (o : Option String) : Except PErr (Option Nat) :=
  match o with
  | none => .ok none
  | some s =>
    if s = "" then .ok none
    else
      match parse_date (some s) with
      | .ok (some z) => .ok (some (instKey z))
      | .ok none => .ok none
      | .error e => .error e

/-- The conjunction of filter clauses of `query_expenses`:
`created_at >= since`, `created_at <= until`, `category = c` (a falsy
empty category adds no clause). -/
def matchesFilters (sinceK untilK : Option Nat) (cat : Option String) (r : Expense) : Bool :=
  (match sinceK with
   | some k => decide (k ≤ dtKey r.created_at)
   | none => true) &&
  (match untilK with
   | some k => decide (dtKey r.created_at ≤ k)
   | none => true) &&
  (match cat with
   | some c => decide (c = "") || decide (r.category = c)
   | none => true)

/-- `ORDER BY created_at DESC` ordering on records. -/
def laterRel (a b : Expense) : Prop := dtKey b.created_at ≤ dtKey a.created_at

instance : DecidableRel laterRel := fun a b => Nat.decLe _ _

instance : IsTotal Expense laterRel :=
  ⟨fun a b => Nat.le_total (dtKey b.created_at) (dtKey a.created_at)⟩

instance : IsTrans Expense laterRel :=
  ⟨fun _ _ _ h1 h2 => Nat.le_trans h2 h1⟩

/-- Newest-first ordering of a result set. -/
def sortNewestFirst (l : List Expense) : List Expense := List.insertionSort laterRel l

/-- `query_expenses` of src/expense_tracker.py: parses the optional date
filters, filters, orders newest first, applies `LIMIT`. -/
def query_expenses (st : Store) (limit : Nat) (since untl cat : Option String) :
    Except PErr (List Expense) := do
  let sinceK ← parseFilterArg since
  let untilK ← parseFilterArg untl
  .ok ((sortNewestFirst (st.rows.filter (matchesFilters sinceK untilK cat))).take limit)

/-- `date_trunc('month', t)`: start of the month. -/
def truncMonth (t : DT) : DT := ⟨t.y, t.m, 1, 0, 0, 0, 0⟩

/-- `date_trunc('week', t)`: start of the ISO week (Monday). -/
def truncWeek (t : DT) : DT :=
  let days := civilToDays t.y t.m t.d
  let dsm := Int.fmod (days + 3) 7
  let c := civilFromDays (days - dsm)
  ⟨c.1.toNat, c.2.1, c.2.2, 0, 0, 0, 0⟩

/-- `date_trunc(period, t)` for the two accepted periods. -/
def periodTrunc (period : String) (t : DT) : DT :=
  if period = "week" then truncWeek t else truncMonth t

/-- First-appearance deduplication (the canonical enumeration of group
keys; `GROUP BY` itself fixes no order). -/
def dedupKeys {α : Type} [DecidableEq α] : List α → List α
  | [] => []
  | a :: l => a :: (dedupKeys l).filter (fun x => x ≠ a)

/-- `GROUP BY category` with `count(*)` and `sum(amount)`, keyed by the
distinct categories. -/
def catGroups (rows : List Expense) : List (String × Nat × Int) :=
  (dedupKeys (rows.map (·.category))).map (fun c =>
    (c, (rows.filter (·.category = c)).length, sumAmounts (rows.filter (·.category = c))))

/-- `GROUP BY date_trunc(period, created_at)` with count and sum. -/
def periodGroups (period : String) (rows : List Expense) : List (DT × Nat × Int) :=
  (dedupKeys (rows.map (fun r => periodTrunc period r.created_at))).map (fun p =>
    (p, (rows.filter (fun r => periodTrunc period r.created_at = p)).length,
      sumAmounts (rows.filter (fun r => periodTrunc period r.created_at = p))))

/-- `ORDER BY period DESC` ordering on period buckets. -/
def periodDescRel (a b : DT × Nat × Int) : Prop := dtKey b.1 ≤ dtKey a.1

instance : DecidableRel periodDescRel := fun a b => Nat.decLe _ _

instance : IsTotal (DT × Nat × Int) periodDescRel :=
  ⟨fun a b => Nat.le_total (dtKey b.1) (dtKey a.1)⟩

instance : IsTrans (DT × Nat × Int) periodDescRel :=
  ⟨fun _ _ _ h1 h2 => Nat.le_trans h2 h1⟩

/-- `summary_by_period` of src/expense_tracker.py: rejects a period other
than `month`/`week`, groups by the truncated period, orders most recent
period first, truncates to `limit`.  Period keys are pairwise distinct,
so the `ORDER BY period DESC` result is uniquely determined. -/
def summary_by_period (period : String) (limit : Nat) (st : Store) :
    Except PErr (List (DT × Nat × Int)) :=
  if period = "month" ∨ period = "week" then
    .ok ((List.insertionSort periodDescRel (periodGroups period st.rows)).take limit)
  else .error .invalidPeriod

/-- `ORDER BY total DESC` ordering on category rows. -/
def totalDescRel (a b : String × Nat × Int) : Prop := b.2.2 ≤ a.2.2

instance : DecidableRel totalDescRel := fun a b => Int.decLe _ _

/-- The rows matching the optional date filters of `category_report`. -/
def filteredRows (st : Store) (since untl : Option String) : Except PErr (List Expense) := do
  let sinceK ← parseFilterArg since
  let untilK ← parseFilterArg untl
  .ok (st.rows.filter (matchesFilters sinceK untilK none))

/-- `category_report` of src/expense_tracker.py, as a relation: the SQL
orders by `total DESC` only, so any order of rows with equal totals is an
admissible output; `out` is a `LIMIT`-prefix of some such ordering. -/
def CatReportRel (st : Store) (since untl : Option String) (limit : Nat)
    (out : List (String × Nat × Int)) : Prop :=
  ∃ rows sorted, filteredRows st since untl = .ok rows ∧
    (catGroups rows).Perm sorted ∧ sorted.Pairwise totalDescRel ∧ out = sorted.take limit

/-- `TO_CHAR(created_at, 'Mon')`: abbreviated capitalised month name. -/
def monthAbbrev (m : Nat) : String :=
  match m with
  | 1 => "Jan" | 2 => "Feb" | 3 => "Mar" | 4 => "Apr" | 5 => "May" | 6 => "Jun"
  | 7 => "Jul" | 8 => "Aug" | 9 => "Sep" | 10 => "Oct" | 11 => "Nov" | 12 => "Dec"
  | _ => "Mon"

/-- `TO_CHAR(created_at, 'Mon-YYYY')`. -/
def monthLabel (t : DT) : String := monthAbbrev t.m ++ "-" ++ String.mk (padDigits 4 t.y)

/-- Minimum of a list of naturals (groups are nonempty wherever this is
used). -/
def natListMin : List Nat → Nat
  | [] => 0
  | [a] => a
  | a :: b :: l => min a (natListMin (b :: l))

/-- `ORDER BY MIN(created_at) ASC` ordering on labelled buckets. -/
def minAscRel (a b : Nat × String × Nat × Int) : Prop := a.1 ≤ b.1

instance : DecidableRel minAscRel := fun a b => Nat.decLe _ _

instance : IsTotal (Nat × String × Nat × Int) minAscRel := ⟨fun a b => Nat.le_total a.1 b.1⟩

instance : IsTrans (Nat × String × Nat × Int) minAscRel := ⟨fun _ _ _ => Nat.le_trans⟩

/-- `summary` of src/expense_tracker2.py: month-only buckets labelled
`Mon-YYYY`, ordered by the earliest record of each bucket ascending
(oldest month first), with no limit.  Distinct labels have distinct
earliest instants, so the order is uniquely determined. -/
def summary2 (st : Store) : List (String × Nat × Int) :=
  let rows := st.rows
  let entries := (dedupKeys (rows.map (fun r => monthLabel r.created_at))).map (fun L =>
    (natListMin ((rows.filter (fun r => monthLabel r.created_at = L)).map
        (fun r => dtKey r.created_at)),
      L, (rows.filter (fun r => monthLabel r.created_at = L)).length,
      sumAmounts (rows.filter (fun r => monthLabel r.created_at = L))))
  (List.insertionSort minAscRel entries).map (fun e => (e.2.1, e.2.2.1, e.2.2.2))

/-- The header row `export_to_csv` writes. -/
def stdHeader : List String := ["id", "amount", "category", "description", "created_at"]

/-- One exported CSV row:
`[id, amount, category, description, created_at.isoformat()]`. -/
def exportRow (r : Expense) : List String :=
  [natToStr r.eid, centsStr r.amount, r.category, r.description, isoStr r.created_at]

/-- `export_to_csv` of src/expense_tracker.py: the header row followed by
one row per record. -/
def export_to_csv (rows : List Expense) : List (List String) :=
  stdHeader :: rows.map exportRow

/-- `DictReader` field access: value of the named column, `none` when the
header lacks the column or the row is short (both failure modes abort the
row identically wherever a value is required). -/
def lookupCell (name : String) (hdr cells : List String) : Option String :=
  (hdr.findIdx? (· = name)).bind (fun i => cells[i]?)

/-- The parsed per-row arguments `import_from_csv` hands to
`add_expense`. -/
structure RowArgs where
  amount : PyNum
  category : String
  description : String
  created : Option DTZ
deriving DecidableEq, Repr

/-- One header-mode row of `import_from_csv`: `Decimal(row['amount'])`,
`row['category']`, `row.get('description','')`, and the falsy-guarded
`parse_date` of `row.get('created_at')`; `none` models any raised
exception (the row is then skipped). -/
def rowFromHeader (hdr cells : List String) : Option RowArgs := do
  let aStr ← lookupCell "amount" hdr cells
  let amount ← pyDecimal aStr
  let category ← lookupCell "category" hdr cells
  let description := (lookupCell "description" hdr cells).getD ""
  match lookupCell "created_at" hdr cells with
  | none => return ⟨amount, category, description, none⟩
  | some ds =>
    if ds = "" then return ⟨amount, category, description, none⟩
    else
      match parse_date (some ds) with
      | .ok z => return ⟨amount, category, description, z⟩
      | .error _ => none

/-- One positional row of `import_from_csv`
(`amount,category,description,created_at`, the last two optional). -/
def rowFromPositional (cells : List String) : Option RowArgs := do
  let aStr ← cells[0]?
  let amount ← pyDecimal aStr
  let category ← cells[1]?
  let description := (cells[2]?).getD ""
  match cells[3]? with
  | none => return ⟨amount, category, description, none⟩
  | some ds =>
    if ds = "" then return ⟨amount, category, description, none⟩
    else
      match parse_date (some ds) with
      | .ok z => return ⟨amount, category, description, z⟩
      | .error _ => none

/-- Row parsing of `import_from_csv` in either mode. -/
def rowParse (hdr : Option (List String)) (cells : List String) : Option RowArgs :=
  match hdr with
  | some h => rowFromHeader h cells
  | none => rowFromPositional cells

/-- The row loop of `import_from_csv`: each row independently parsed and
inserted, a row whose parse or insert raises is skipped (and not
counted), the counter incremented only per successful insert. -/
def importRows (hdr : Option (List String)) (now : DT) :
    List (List String) → Store → Store × Nat
  | [], st => (st, 0)
  | cells :: rest, st =>
    match rowParse hdr cells with
    | some a =>
      match add_expense st a.amount a.category a.description a.created now with
      | some st2 =>
        let r := importRows hdr now rest st2
        (r.1, r.2 + 1)
      | none => importRows hdr now rest st
    | none => importRows hdr now rest st

/-- `import_from_csv` of src/expense_tracker.py.  The returned number is
the logged `imported` counter (the Python function logs it and returns
`None`). -/
def import_from_csv (file : List (List String)) (has_header : Bool) (now : DT) (st : Store) :
    Store × Nat :=
  if has_header then
    match file with
    | [] => (st, 0)
    | hdr :: rows => importRows (some hdr) now rows st
  else importRows none now file st

/-- Does the list not start with a digit (so a greedy digit run stops
here)? -/
def headNotDigit : List Char → Bool
  | [] => true
  | c :: _ => !isDigitC c


/-- The stored cents of a parsed amount (applied only to finite values:
non-finite amounts never reach the store). -/
def pyCents : PyNum → Int
  | .fin q => toCents q
  | _ => 0

/-- Do these parsed row arguments pass the `expenses` schema of
src/expense_tracker.py (`VARCHAR(120)` category, `NUMERIC(12,2)` amount,
finite value)? -/
def insertOkB (a : RowArgs) : Bool :=
  match a.amount with
  | .fin q => a.category.length ≤ 120 && (toCents q).natAbs ≤ 999999999999
  | _ => false

/-- The net outcome of one `import_from_csv` row: the parsed arguments
when both the parse and the insert succeed, `none` when the row is
skipped (either failure mode). -/
def rowOutcome (hdr : Option (List String)) (cells : List String) : Option RowArgs :=
  (rowParse hdr cells).bind (fun a => if insertOkB a then some a else none)

/-- The records a run of successful `add_expense` calls appends, with
sequentially assigned ids. -/
def buildRecs (nid : Nat) (now : DT) : List RowArgs → List Expense
  | [] => []
  | a :: rest =>
    ⟨nid, pyCents a.amount, a.category, a.description, resolveCreated a.created now⟩ ::
      buildRecs (nid + 1) now rest

/-- The arguments re-importing an exported record hands to
`add_expense`. -/
def expArgs (r : Expense) : RowArgs :=
  ⟨.fin ((r.amount : Rat) / 100), r.category, r.description, some ⟨r.created_at, 0⟩⟩

/-- A record without its store-assigned id. -/
def stripFields (r : Expense) : Int × String × String × DT :=
  (r.amount, r.category, r.description, r.created_at)

/-- A fixed `now()` instant for concrete evaluations. -/
def demoNow : DT := ⟨2025, 1, 1, 0, 0, 0, 0⟩

/-- A stored record whose `created_at` carries microseconds. -/
def demoRecUs : Expense := ⟨7, 1250, "Food", "lunch", ⟨2024, 3, 5, 12, 30, 0, 123456⟩⟩

/-- Two categories with equal totals (a tie under `ORDER BY total
DESC`), the later-named one appearing first. -/
def demoStoreC5 : Store :=
  ⟨3, [⟨1, 500, "beta", "", ⟨2024, 1, 5, 0, 0, 0, 0⟩⟩,
       ⟨2, 500, "alpha", "", ⟨2024, 1, 6, 0, 0, 0, 0⟩⟩]⟩

/-- Records spanning two months. -/
def demoStoreC6 : Store :=
  ⟨3, [⟨1, 1000, "Food", "", ⟨2024, 1, 5, 0, 0, 0, 0⟩⟩,
       ⟨2, 2000, "Food", "", ⟨2024, 2, 5, 0, 0, 0, 0⟩⟩]⟩

theorem digitVal_digitChar {k : Nat} (h : k < 10) : digitVal (digitChar k) = k := by
  interval_cases k <;> decide

theorem isDigitC_digitChar {k : Nat} (h : k < 10) : isDigitC (digitChar k) = true := by
  interval_cases k <;> decide

theorem natDigitsFuel_congr (f1 : Nat) : ∀ (f2 n : Nat), n ≤ f1 → n ≤ f2 →
    natDigitsFuel f1 n = natDigitsFuel f2 n := by
  induction f1 with
  | zero =>
    intro f2 n h1 h2
    have hn : n = 0 := by omega
    subst hn
    cases f2 with
    | zero => rfl
    | succ f2 => simp [natDigitsFuel]
  | succ f1 ih =>
    intro f2 n h1 h2
    cases f2 with
    | zero =>
      have hn : n = 0 := by omega
      subst hn
      simp [natDigitsFuel]
    | succ f2 =>
      by_cases hn : n < 10
      · simp [natDigitsFuel, hn]
      · have hd1 : n / 10 ≤ f1 := by omega
        have hd2 : n / 10 ≤ f2 := by omega
        simp only [natDigitsFuel, if_neg hn]
        rw [ih f2 (n / 10) hd1 hd2]

theorem natDigits_unfold (n : Nat) :
    natDigits n = if n < 10 then [digitChar n] else natDigits (n / 10) ++ [digitChar (n % 10)] := by
  by_cases hn : n < 10
  · rw [if_pos hn, natDigits]
    cases n with
    | zero => rfl
    | succ m => simp [natDigitsFuel, hn]
  · rw [if_neg hn, natDigits, natDigits]
    cases n with
    | zero => omega
    | succ m =>
      simp only [natDigitsFuel, if_neg hn]
      rw [natDigitsFuel_congr m ((m + 1) / 10) ((m + 1) / 10) (by omega) (by omega)]

theorem natDigits_ne_nil (n : Nat) : natDigits n ≠ [] := by
  rw [natDigits_unfold]
  split
  · simp
  · simp

theorem digitsVal_append_singleton (l : List Char) (c : Char) :
    digitsVal (l ++ [c]) = digitsVal l * 10 + digitVal c := by
  simp [digitsVal, List.foldl_append]

theorem digitsVal_natDigits (n : Nat) : digitsVal (natDigits n) = n := by
  induction n using Nat.strong_induction_on with
  | _ n ih =>
    rw [natDigits_unfold]
    split
    · rename_i h
      simp [digitsVal, digitVal_digitChar h]
    · rename_i h
      rw [digitsVal_append_singleton, ih (n / 10) (Nat.div_lt_self (by omega) (by omega)),
        digitVal_digitChar (by omega)]
      omega

theorem natDigits_all_digits (n : Nat) : ∀ c ∈ natDigits n, isDigitC c = true := by
  induction n using Nat.strong_induction_on with
  | _ n ih =>
    rw [natDigits_unfold]
    split
    · rename_i h
      intro c hc
      simp only [List.mem_singleton] at hc
      subst hc
      exact isDigitC_digitChar h
    · rename_i h
      intro c hc
      rw [List.mem_append] at hc
      rcases hc with hc | hc
      · exact ih (n / 10) (Nat.div_lt_self (by omega) (by omega)) c hc
      · simp only [List.mem_singleton] at hc
        subst hc
        exact isDigitC_digitChar (by omega)

theorem natDigits_length_le {n w : Nat} (h1 : 1 ≤ w) (h2 : n < 10 ^ w) :
    (natDigits n).length ≤ w := by
  induction w generalizing n with
  | zero => omega
  | succ w ihw =>
    rw [natDigits_unfold]
    split
    · simp
    · rename_i h
      have hw : 1 ≤ w := by
        rcases Nat.eq_zero_or_pos w with hw0 | hw0
        · subst hw0; simp at h2; omega
        · exact hw0
      have hdiv : n / 10 < 10 ^ w := by
        have h10 : (0 : Nat) < 10 := by omega
        rw [Nat.div_lt_iff_lt_mul h10]
        calc n < 10 ^ (w + 1) := h2
        _ = 10 ^ w * 10 := by ring
      have := ihw hw hdiv
      simp only [List.length_append, List.length_singleton]
      omega

theorem digitsVal_replicate_zero (k : Nat) (l : List Char) :
    digitsVal (List.replicate k '0' ++ l) = digitsVal l := by
  induction k with
  | zero => simp
  | succ k ih =>
    have hz : digitVal '0' = 0 := by decide
    simp only [List.replicate_succ, List.cons_append, digitsVal, List.foldl_cons] at *
    simpa [hz] using ih

theorem padDigits_all_digits (w n : Nat) : ∀ c ∈ padDigits w n, isDigitC c = true := by
  intro c hc
  rw [padDigits, List.mem_append] at hc
  rcases hc with hc | hc
  · have := List.eq_of_mem_replicate hc
    subst this
    decide
  · exact natDigits_all_digits n c hc

theorem digitsVal_padDigits (w n : Nat) : digitsVal (padDigits w n) = n := by
  rw [padDigits, digitsVal_replicate_zero, digitsVal_natDigits]

theorem padDigits_ne_nil (w n : Nat) : padDigits w n ≠ [] := by
  rw [padDigits]
  intro h
  rcases List.append_eq_nil.mp h with ⟨_, h2⟩
  exact natDigits_ne_nil n h2

theorem padDigits_length {w n : Nat} (h1 : 1 ≤ w) (h2 : n < 10 ^ w) :
    (padDigits w n).length = w := by
  have := natDigits_length_le h1 h2
  simp only [padDigits, List.length_append, List.length_replicate]
  omega

theorem takeDigits_append {ds : List Char} (rest : List Char)
    (hds : ∀ c ∈ ds, isDigitC c = true) (hrest : headNotDigit rest = true) :
    takeDigits (ds ++ rest) = (ds, rest) := by
  induction ds with
  | nil =>
    cases rest with
    | nil => rfl
    | cons c cs =>
      simp only [headNotDigit, Bool.not_eq_true'] at hrest
      simp [takeDigits, hrest]
  | cons d ds ih =>
    have hd := hds d (List.mem_cons_self _ _)
    have hds' : ∀ c ∈ ds, isDigitC c = true := fun c hc => hds c (List.mem_cons_of_mem _ hc)
    simp [takeDigits, hd, ih hds']

theorem takeDigitsUpTo_exact {ds : List Char} (k : Nat) (rest : List Char)
    (hk : ds.length ≤ k) (hds : ∀ c ∈ ds, isDigitC c = true)
    (hrest : headNotDigit rest = true) :
    takeDigitsUpTo k (ds ++ rest) = (ds, rest) := by
  induction ds generalizing k with
  | nil =>
    cases k with
    | zero => rfl
    | succ k =>
      cases rest with
      | nil => rfl
      | cons c cs =>
        simp only [headNotDigit, Bool.not_eq_true'] at hrest
        simp [takeDigitsUpTo, hrest]
  | cons d ds ih =>
    cases k with
    | zero => simp at hk
    | succ k =>
      have hd := hds d (List.mem_cons_self _ _)
      have hds' : ∀ c ∈ ds, isDigitC c = true := fun c hc => hds c (List.mem_cons_of_mem _ hc)
      have hk' : ds.length ≤ k := by simpa using hk
      simp [takeDigitsUpTo, hd, ih k hk' hds']

theorem parseNumUpTo_pad {w : Nat} (k n : Nat) (rest : List Char)
    (h1 : 1 ≤ w) (h2 : w ≤ k) (h3 : n < 10 ^ w) (hrest : headNotDigit rest = true) :
    parseNumUpTo k (padDigits w n ++ rest) = some (n, rest) := by
  have hlen : (padDigits w n).length ≤ k := by
    rw [padDigits_length h1 h3]; exact h2
  rw [parseNumUpTo, takeDigitsUpTo_exact k rest hlen (padDigits_all_digits w n) hrest]
  simp [padDigits_ne_nil, digitsVal_padDigits]

theorem expectC_cons (c : Char) (rest : List Char) : expectC c (c :: rest) = some rest := by
  simp [expectC]

theorem headNotDigit_cons (c : Char) (l : List Char) : headNotDigit (c :: l) = !isDigitC c := rfl

theorem notWs_of_digit {c : Char} (h : isDigitC c = true) : isWs c = false := by
  simp only [isWs, Bool.or_eq_false_iff, decide_eq_false_iff_not]
  refine ⟨⟨⟨⟨⟨?_, ?_⟩, ?_⟩, ?_⟩, ?_⟩, ?_⟩ <;> rintro rfl <;> exact absurd h (by decide)

theorem signSplit_digit {c : Char} (h : isDigitC c = true) (cs : List Char) :
    signSplit (c :: cs) = (false, c :: cs) := by
  have h1 : ¬(c = '-') := by rintro rfl; exact absurd h (by decide)
  have h2 : ¬(c = '+') := by rintro rfl; exact absurd h (by decide)
  simp [signSplit, h1, h2]

theorem dropWhile_ws_eq_self (l : List Char) (h : ∀ c ∈ l, isWs c = false) :
    l.dropWhile isWs = l := by
  cases l with
  | nil => rfl
  | cons c cs => simp [List.dropWhile_cons, h c (List.mem_cons_self _ _)]

theorem trimWs_eq_self (l : List Char) (h : ∀ c ∈ l, isWs c = false) : trimWs l = l := by
  rw [trimWs, dropWhile_ws_eq_self l h,
    dropWhile_ws_eq_self l.reverse (fun c hc => h c (List.mem_reverse.mp hc)),
    List.reverse_reverse]

theorem toLowerC_digit {c : Char} (h : isDigitC c = true) : toLowerC c = c := by
  simp only [isDigitC, Bool.and_eq_true, decide_eq_true_eq] at h
  have hno : ¬((65 ≤ c.toNat && c.toNat ≤ 90) = true) := by
    simp only [Bool.and_eq_true, decide_eq_true_eq, not_and]
    omega
  rw [toLowerC, if_neg hno]

theorem specialTail_digit (ap as : Bool) {c : Char} (h : isDigitC c = true) (cs : List Char) :
    specialTail ap as (c :: cs) = none := by
  have hl := toLowerC_digit h
  have hi : ¬(toLowerC c = 'i') := by rw [hl]; rintro rfl; exact absurd h (by decide)
  have hn : ¬(toLowerC c = 'n') := by rw [hl]; rintro rfl; exact absurd h (by decide)
  have hs : ¬(toLowerC c = 's') := by rw [hl]; rintro rfl; exact absurd h (by decide)
  rw [specialTail]
  simp only [matchWordCI, if_neg hi, if_neg hn, if_neg hs]
  cases as <;> rfl

theorem stripUnders_eq_self (l : List Char) (h : ∀ c ∈ l, c ≠ '_') : stripUnders l = l := by
  rw [stripUnders, List.filter_eq_self]
  intro c hc
  simpa using h c hc

theorem notUnder_of_digit {c : Char} (h : isDigitC c = true) : c ≠ '_' := by
  rintro rfl
  exact absurd h (by decide)

theorem numericMag_frac (ds fs : List Char) (hne : ds ≠ [])
    (hds : ∀ c ∈ ds, isDigitC c = true) (hfs : ∀ c ∈ fs, isDigitC c = true) :
    numericMag (ds ++ '.' :: fs) =
      some ((digitsVal ds : Rat) + (digitsVal fs : Rat) / 10 ^ fs.length) := by
  have hfs2 : takeDigits fs = (fs, []) := by
    have := @takeDigits_append fs [] hfs (by rfl)
    simpa using this
  rw [numericMag, takeDigits_append ('.' :: fs) hds (by rw [headNotDigit_cons]; decide)]
  simp [hne, hfs2, parseExpTail, pow10]

theorem numCore_digits (ap as : Bool) (ds fs : List Char) (hne : ds ≠ [])
    (hds : ∀ c ∈ ds, isDigitC c = true) (hfs : ∀ c ∈ fs, isDigitC c = true) :
    numCore ap as (ds ++ '.' :: fs) =
      some (.fin ((digitsVal ds : Rat) + (digitsVal fs : Rat) / 10 ^ fs.length)) := by
  obtain ⟨c, cs', rfl⟩ := List.exists_cons_of_ne_nil hne
  have hc := hds c (List.mem_cons_self _ _)
  have hmag : numericMag (c :: (cs' ++ '.' :: fs)) =
      some ((digitsVal (c :: cs') : Rat) + (digitsVal fs : Rat) / 10 ^ fs.length) := by
    have hm := numericMag_frac (c :: cs') fs (by simp) hds hfs
    rwa [List.cons_append] at hm
  rw [numCore, List.cons_append, signSplit_digit hc, ← List.cons_append]
  simp [specialTail_digit ap as hc, hmag]

theorem numCore_neg_digits (ap as : Bool) (ds fs : List Char) (hne : ds ≠ [])
    (hds : ∀ c ∈ ds, isDigitC c = true) (hfs : ∀ c ∈ fs, isDigitC c = true) :
    numCore ap as ('-' :: (ds ++ '.' :: fs)) =
      some (.fin (-((digitsVal ds : Rat) + (digitsVal fs : Rat) / 10 ^ fs.length))) := by
  have hsign : signSplit ('-' :: (ds ++ '.' :: fs)) = (true, ds ++ '.' :: fs) := by
    simp [signSplit]
  obtain ⟨c, cs', rfl⟩ := List.exists_cons_of_ne_nil hne
  have hc := hds c (List.mem_cons_self _ _)
  have hmag : numericMag (c :: (cs' ++ '.' :: fs)) =
      some ((digitsVal (c :: cs') : Rat) + (digitsVal fs : Rat) / 10 ^ fs.length) := by
    have hm := numericMag_frac (c :: cs') fs (by simp) hds hfs
    rwa [List.cons_append] at hm
  rw [numCore, hsign]
  simp only [List.cons_append, specialTail_digit ap as hc, hmag, Option.map_some]
  simp [neg_add]

theorem centsChars_not_ws (a : Int) : ∀ c ∈ centsChars a, isWs c = false := by
  intro c hc
  rw [centsChars, List.mem_append, List.mem_append] at hc
  rcases hc with (hc | hc) | hc
  · split at hc
    · simp only [List.mem_singleton] at hc
      subst hc
      decide
    · simp at hc
  · exact notWs_of_digit (natDigits_all_digits _ c hc)
  · rw [List.mem_cons] at hc
    rcases hc with hc | hc
    · subst hc
      decide
    · exact notWs_of_digit (padDigits_all_digits _ _ c hc)

theorem cents_val_split (n : Nat) :
    ((n / 100 : Nat) : Rat) + ((n % 100 : Nat) : Rat) / 10 ^ (2 : Nat) = (n : Rat) / 100 := by
  have hq : n / 100 * 100 + n % 100 = n := by omega
  have h100 : ((10 : Rat) ^ (2 : Nat)) = 100 := by norm_num
  rw [h100, eq_div_iff (by norm_num : (100 : Rat) ≠ 0), add_mul,
    div_mul_cancel₀ _ (by norm_num : (100 : Rat) ≠ 0)]
  exact_mod_cast hq

theorem centsChars_not_under (a : Int) : ∀ c ∈ centsChars a, c ≠ '_' := by
  intro c hc
  rw [centsChars, List.mem_append, List.mem_append] at hc
  rcases hc with (hc | hc) | hc
  · split at hc
    · simp only [List.mem_singleton] at hc
      subst hc
      decide
    · simp at hc
  · exact notUnder_of_digit (natDigits_all_digits _ c hc)
  · rw [List.mem_cons] at hc
    rcases hc with hc | hc
    · subst hc
      decide
    · exact notUnder_of_digit (padDigits_all_digits _ _ c hc)

theorem pyDecimal_centsStr (a : Int) :
    pyDecimal (centsStr a) = some (.fin ((a : Rat) / 100)) := by
  have hdata : (centsStr a).data = centsChars a := rfl
  have hlen : (padDigits 2 (a.natAbs % 100)).length = 2 := padDigits_length (by omega) (by omega)
  have hval : ((digitsVal (natDigits (a.natAbs / 100)) : Rat) +
      (digitsVal (padDigits 2 (a.natAbs % 100)) : Rat) / 10 ^ (padDigits 2 (a.natAbs % 100)).length) =
      ((a.natAbs : Rat) / 100) := by
    rw [digitsVal_natDigits, digitsVal_padDigits, hlen]
    exact cents_val_split a.natAbs
  rw [pyDecimal, hdata, trimWs_eq_self _ (centsChars_not_ws a),
    stripUnders_eq_self _ (centsChars_not_under a), centsChars]
  by_cases hneg : a < 0
  · rw [if_pos hneg, List.singleton_append, List.cons_append]
    rw [numCore_neg_digits true true _ _ (natDigits_ne_nil _) (natDigits_all_digits _)
      (padDigits_all_digits _ _), hval]
    have h2 : ((a.natAbs : Rat)) = -(a : Rat) := by
      rw [Int.cast_natAbs, abs_of_neg hneg]
      push_cast
      ring
    rw [h2]
    ring_nf
  · rw [if_neg hneg, List.nil_append]
    rw [numCore_digits true true _ _ (natDigits_ne_nil _) (natDigits_all_digits _)
      (padDigits_all_digits _ _), hval]
    have h2 : ((a.natAbs : Rat)) = (a : Rat) := by
      rw [Int.cast_natAbs, abs_of_nonneg (by omega : (0 : Int) ≤ a)]
    rw [h2]

theorem ratFloor_intCast_add_half (a : Int) : Rat.floor ((a : Rat) + 1 / 2) = a := by
  have h0 : Rat.floor ((a : Rat) + 1 / 2) = ⌊(a : Rat) + 1 / 2⌋ := rfl
  rw [h0, add_comm, Int.floor_add_int]
  norm_num

theorem toCents_centsVal (a : Int) : toCents ((a : Rat) / 100) = a := by
  rw [toCents, div_mul_cancel₀ _ (by norm_num : (100 : Rat) ≠ 0), roundHalfAway]
  by_cases h : (0 : Rat) ≤ (a : Rat)
  · rw [if_pos h, ratFloor_intCast_add_half]
  · rw [if_neg h]
    have hcast : -((a : Rat)) = ((-a : Int) : Rat) := by push_cast; ring
    rw [hcast, ratFloor_intCast_add_half]
    omega

theorem parseDigitsExact_pad (w n : Nat) (rest : List Char) (h1 : 1 ≤ w) (h2 : n < 10 ^ w)
    (hrest : headNotDigit rest = true) :
    parseDigitsExact w (padDigits w n ++ rest) = some (n, rest) := by
  have hlen : (padDigits w n).length = w := padDigits_length h1 h2
  rw [parseDigitsExact,
    takeDigitsUpTo_exact w rest (le_of_eq hlen) (padDigits_all_digits w n) hrest]
  simp [hlen, digitsVal_padDigits]

theorem parseDay_pad (dv : Nat) (rest : List Char) (hd : dv < 100)
    (hrest : headNotDigit rest = true) :
    parseDay (padDigits 2 dv ++ rest) = some (dv, rest) := by
  obtain ⟨c, cs, hcons⟩ := List.exists_cons_of_ne_nil (padDigits_ne_nil 2 dv)
  have hc : isDigitC c = true := by
    apply padDigits_all_digits 2 dv
    rw [hcons]
    exact List.mem_cons_self _ _
  have hsp : ¬(c = ' ') := by
    rintro rfl
    exact absurd hc (by decide)
  have hpn : parseNumUpTo 2 (padDigits 2 dv ++ rest) = some (dv, rest) :=
    parseNumUpTo_pad 2 dv rest (by omega) (by omega) (by omega) hrest
  rw [hcons, List.cons_append] at hpn ⊢
  have hunf : parseDay (c :: (cs ++ rest)) =
      if c = ' ' then
        (match cs ++ rest with
         | d :: rest2 => if isDigitC d && d ≠ '0' then some (digitVal d, rest2) else none
         | [] => none)
      else parseNumUpTo 2 (c :: (cs ++ rest)) := rfl
  rw [hunf, if_neg hsp]
  exact hpn

theorem parseYMD_pad (yv mv dv : Nat) (rest : List Char)
    (hy : yv < 10000) (hm : mv < 100) (hd : dv < 100) (hrest : headNotDigit rest = true) :
    parseYMD (padDigits 4 yv ++ '-' :: (padDigits 2 mv ++ '-' :: (padDigits 2 dv ++ rest))) =
      some ((yv, mv, dv), rest) := by
  have h1 : parseDigitsExact 4 (padDigits 4 yv ++ '-' :: (padDigits 2 mv ++ '-' :: (padDigits 2 dv ++ rest))) =
      some (yv, '-' :: (padDigits 2 mv ++ '-' :: (padDigits 2 dv ++ rest))) :=
    parseDigitsExact_pad 4 yv _ (by omega) (by omega) (by rw [headNotDigit_cons]; decide)
  have h2 : parseNumUpTo 2 (padDigits 2 mv ++ '-' :: (padDigits 2 dv ++ rest)) =
      some (mv, '-' :: (padDigits 2 dv ++ rest)) :=
    parseNumUpTo_pad 2 mv _ (by omega) (by omega) (by omega) (by rw [headNotDigit_cons]; decide)
  have h3 : parseDay (padDigits 2 dv ++ rest) = some (dv, rest) :=
    parseDay_pad dv rest hd hrest
  simp [parseYMD, h1, h2, h3, expectC_cons]

theorem parseHMS_pad (hv mv sv : Nat) (rest : List Char)
    (hh : hv < 100) (hm : mv < 100) (hs : sv < 100) (hrest : headNotDigit rest = true) :
    parseHMS (padDigits 2 hv ++ ':' :: (padDigits 2 mv ++ ':' :: (padDigits 2 sv ++ rest))) =
      some ((hv, mv, sv), rest) := by
  have h1 : parseNumUpTo 2 (padDigits 2 hv ++ ':' :: (padDigits 2 mv ++ ':' :: (padDigits 2 sv ++ rest))) =
      some (hv, ':' :: (padDigits 2 mv ++ ':' :: (padDigits 2 sv ++ rest))) :=
    parseNumUpTo_pad 2 hv _ (by omega) (by omega) (by omega) (by rw [headNotDigit_cons]; decide)
  have h2 : parseNumUpTo 2 (padDigits 2 mv ++ ':' :: (padDigits 2 sv ++ rest)) =
      some (mv, ':' :: (padDigits 2 sv ++ rest)) :=
    parseNumUpTo_pad 2 mv _ (by omega) (by omega) (by omega) (by rw [headNotDigit_cons]; decide)
  have h3 : parseNumUpTo 2 (padDigits 2 sv ++ rest) = some (sv, rest) :=
    parseNumUpTo_pad 2 sv _ (by omega) (by omega) (by omega) hrest
  simp [parseHMS, h1, h2, h3, expectC_cons]

theorem validYMDHMS_of_valid {t : DT} (h : ValidDT t) :
    validYMDHMS t.y t.m t.d t.hh t.mi t.ss = true := by
  obtain ⟨h1, h2, h3, h4, h5, h6, h7, h8, h9, _⟩ := h
  simp only [validYMDHMS, Bool.and_eq_true, decide_eq_true_eq]
  exact ⟨⟨⟨⟨⟨⟨⟨⟨h1, h2⟩, h3⟩, h4⟩, h5⟩, h6⟩, h7⟩, h8⟩, h9⟩

theorem isoChars_no_us {t : DT} (hus : t.us = 0) :
    isoChars t =
      padDigits 4 t.y ++ '-' :: (padDigits 2 t.m ++ '-' :: (padDigits 2 t.d ++
        'T' :: (padDigits 2 t.hh ++ ':' :: (padDigits 2 t.mi ++ ':' :: (padDigits 2 t.ss ++
          ['+', '0', '0', ':', '0', '0']))))) := by
  rw [isoChars, hus]
  simp

theorem tryFmt1_iso (t : DT) (hv : ValidDT t) (hus : t.us = 0) :
    tryFmt1 (isoStr t) = some ⟨t, 0⟩ := by
  obtain ⟨h1, h2, h3, h4, h5, h6, h7, h8, h9, _⟩ := hv
  have hdm : t.d < 100 := by
    have : daysInMonth t.y t.m ≤ 31 := by
      rw [daysInMonth]
      split
      · split <;> omega
      · split <;> omega
    omega
  have hdata : (isoStr t).data = isoChars t := rfl
  rw [tryFmt1, hdata, isoChars_no_us hus]
  have hymd := parseYMD_pad t.y t.m t.d
    ('T' :: (padDigits 2 t.hh ++ ':' :: (padDigits 2 t.mi ++ ':' :: (padDigits 2 t.ss ++
      ['+', '0', '0', ':', '0', '0']))))
    (by omega) (by omega) (by omega) (by rw [headNotDigit_cons]; decide)
  have hhms := parseHMS_pad t.hh t.mi t.ss ['+', '0', '0', ':', '0', '0']
    (by omega) (by omega) (by omega) (by rw [headNotDigit_cons]; decide)
  have htz : parseTZ ['+', '0', '0', ':', '0', '0'] = some (0, []) := by decide
  have hvb : validYMDHMS t.y t.m t.d t.hh t.mi t.ss = true :=
    validYMDHMS_of_valid ⟨h1, h2, h3, h4, h5, h6, h7, h8, h9, by omega⟩
  simp only [fmtOffsetChars, hymd, Option.bind_eq_bind, Option.some_bind, expectC_cons,
    hhms, htz, List.isEmpty_nil, Bool.true_and, hvb, if_true]
  have : DT.mk t.y t.m t.d t.hh t.mi t.ss 0 = t := by
    rw [← hus]
  rw [this]

theorem isoStr_ne_empty (t : DT) : isoStr t ≠ "" := by
  intro h
  have hdata : (isoStr t).data = isoChars t := rfl
  have : isoChars t = [] := by
    rw [← hdata, h]
  rw [isoChars] at this
  simp only [List.append_eq_nil, List.cons_ne_nil, and_false, false_and] at this

theorem parse_date_iso (t : DT) (hv : ValidDT t) (hus : t.us = 0) :
    parse_date (some (isoStr t)) = .ok (some ⟨t, 0⟩) := by
  rw [parse_date, if_neg (isoStr_ne_empty t), tryFmt1_iso t hv hus]

theorem normTZ_zero (t : DT) : normTZ ⟨t, 0⟩ = t := by
  simp [normTZ]

theorem lookupCell_std_amount (a b c d e : String) :
    lookupCell "amount" stdHeader [a, b, c, d, e] = some b := rfl

theorem lookupCell_std_category (a b c d e : String) :
    lookupCell "category" stdHeader [a, b, c, d, e] = some c := rfl

theorem lookupCell_std_description (a b c d e : String) :
    lookupCell "description" stdHeader [a, b, c, d, e] = some d := rfl

theorem lookupCell_std_created (a b c d e : String) :
    lookupCell "created_at" stdHeader [a, b, c, d, e] = some e := rfl

theorem rowFromHeader_exportRow (r : Expense) (hv : ValidDT r.created_at)
    (hus : r.created_at.us = 0) :
    rowFromHeader stdHeader (exportRow r) = some (expArgs r) := by
  have h1 : lookupCell "amount" stdHeader (exportRow r) = some (centsStr r.amount) :=
    lookupCell_std_amount _ _ _ _ _
  have h2 : lookupCell "category" stdHeader (exportRow r) = some r.category :=
    lookupCell_std_category _ _ _ _ _
  have h3 : lookupCell "description" stdHeader (exportRow r) = some r.description :=
    lookupCell_std_description _ _ _ _ _
  have h4 : lookupCell "created_at" stdHeader (exportRow r) = some (isoStr r.created_at) :=
    lookupCell_std_created _ _ _ _ _
  rw [rowFromHeader]
  simp only [h1, h2, h3, h4, Option.bind_eq_bind, Option.some_bind, pyDecimal_centsStr,
    Option.getD_some]
  rw [if_neg (isoStr_ne_empty _), parse_date_iso _ hv hus]
  rfl

theorem add_expense_ok (st : Store) (a : RowArgs) (now : DT) (h : insertOkB a = true) :
    add_expense st a.amount a.category a.description a.created now =
      some ⟨st.nextId + 1, st.rows ++
        [⟨st.nextId, pyCents a.amount, a.category, a.description,
          resolveCreated a.created now⟩]⟩ := by
  rcases a with ⟨am, cat, desc, cr⟩
  cases am with
  | fin q =>
    simp only [insertOkB] at h
    simp [add_expense, pyCents, h]
  | nan => simp [insertOkB] at h
  | pinf => simp [insertOkB] at h
  | ninf => simp [insertOkB] at h

theorem add_expense_fail (st : Store) (a : RowArgs) (now : DT) (h : insertOkB a = false) :
    add_expense st a.amount a.category a.description a.created now = none := by
  rcases a with ⟨am, cat, desc, cr⟩
  cases am with
  | fin q =>
    simp only [insertOkB] at h
    simp [add_expense, h]
  | nan => rfl
  | pinf => rfl
  | ninf => rfl

theorem importRows_spec (hdr : Option (List String)) (now : DT) (rows : List (List String))
    (st : Store) :
    importRows hdr now rows st =
      (⟨st.nextId + (rows.filterMap (rowOutcome hdr)).length,
        st.rows ++ buildRecs st.nextId now (rows.filterMap (rowOutcome hdr))⟩,
       (rows.filterMap (rowOutcome hdr)).length) := by
  induction rows generalizing st with
  | nil => simp [importRows, buildRecs]
  | cons cells rest ih =>
    simp only [importRows]
    cases hp : rowParse hdr cells with
    | none =>
      have hro : rowOutcome hdr cells = none := by
        rw [rowOutcome, hp]
        rfl
      rw [ih st]
      simp [List.filterMap_cons, hro]
    | some a =>
      cases hok : insertOkB a with
      | false =>
        have hro : rowOutcome hdr cells = none := by
          rw [rowOutcome, hp]
          simp [hok]
        simp only [add_expense_fail st a now hok]
        rw [ih st]
        simp [List.filterMap_cons, hro]
      | true =>
        have hro : rowOutcome hdr cells = some a := by
          rw [rowOutcome, hp]
          simp [hok]
        simp only [add_expense_ok st a now hok]
        rw [ih]
        simp only [List.filterMap_cons, hro, buildRecs, List.length_cons, List.append_assoc,
          List.singleton_append, Prod.mk.injEq, Store.mk.injEq, and_true, true_and]
        omega

theorem insertOkB_expArgs (r : Expense) (hcat : r.category.length ≤ 120)
    (hamt : r.amount.natAbs ≤ 999999999999) : insertOkB (expArgs r) = true := by
  simp only [insertOkB, expArgs, toCents_centsVal]
  simp [hcat, hamt]

theorem filterMap_export (recs : List Expense)
    (h : ∀ r ∈ recs, ValidDT r.created_at ∧ r.created_at.us = 0 ∧
      r.category.length ≤ 120 ∧ r.amount.natAbs ≤ 999999999999) :
    (recs.map exportRow).filterMap (rowOutcome (some stdHeader)) = recs.map expArgs := by
  induction recs with
  | nil => rfl
  | cons r rs ih =>
    have hr := h r (List.mem_cons_self _ _)
    have ihh := ih (fun x hx => h x (List.mem_cons_of_mem _ hx))
    have hro : rowOutcome (some stdHeader) (exportRow r) = some (expArgs r) := by
      rw [rowOutcome]
      rw [show rowParse (some stdHeader) (exportRow r) = some (expArgs r) from
        rowFromHeader_exportRow r hr.1 hr.2.1]
      simp [insertOkB_expArgs r hr.2.2.1 hr.2.2.2]
    simp only [List.map_cons, List.filterMap_cons, hro, ihh]

theorem buildRecs_expArgs_strip (recs : List Expense) (nid : Nat) (now : DT) :
    (buildRecs nid now (recs.map expArgs)).map stripFields = recs.map stripFields := by
  induction recs generalizing nid with
  | nil => rfl
  | cons r rs ih =>
    simp only [List.map_cons, buildRecs, expArgs, resolveCreated, pyCents]
    rw [normTZ_zero, toCents_centsVal]
    simp only [List.map_cons, ih]
    rfl

theorem mem_dedupKeys {α : Type} [DecidableEq α] {a : α} {l : List α} :
    a ∈ dedupKeys l ↔ a ∈ l := by
  induction l with
  | nil => simp [dedupKeys]
  | cons b l ih =>
    simp only [dedupKeys, List.mem_cons, List.mem_filter]
    constructor
    · rintro (rfl | ⟨hmem, _⟩)
      · exact Or.inl rfl
      · exact Or.inr (ih.mp hmem)
    · rintro (rfl | hmem)
      · exact Or.inl rfl
      · by_cases hab : a = b
        · exact Or.inl hab
        · exact Or.inr ⟨ih.mpr hmem, by simpa using hab⟩

theorem nodup_dedupKeys {α : Type} [DecidableEq α] (l : List α) : (dedupKeys l).Nodup := by
  induction l with
  | nil => simp [dedupKeys]
  | cons b l ih =>
    simp only [dedupKeys]
    rw [List.nodup_cons]
    constructor
    · intro hmem
      rcases List.mem_filter.mp hmem with ⟨_, hne⟩
      simp at hne
    · exact List.Nodup.filter _ ih

theorem dedupKeys_ne_nil {α : Type} [DecidableEq α] {l : List α} (h : l ≠ []) :
    dedupKeys l ≠ [] := by
  cases l with
  | nil => exact absurd rfl h
  | cons a l => simp [dedupKeys]

theorem sum_indicator_zero {α : Type} [DecidableEq α] (ks : List α) (k0 : α) (h : k0 ∉ ks)
    (a : Int) : (ks.map (fun k => if k0 = k then a else 0)).sum = 0 := by
  induction ks with
  | nil => rfl
  | cons k ks ih =>
    have hne : ¬(k0 = k) := fun hh => h (hh ▸ List.mem_cons_self _ _)
    simp only [List.map_cons, List.sum_cons, if_neg hne,
      ih (fun hm => h (List.mem_cons_of_mem _ hm)), zero_add]

theorem sum_indicator_single {α : Type} [DecidableEq α] (ks : List α) (k0 : α) (hnd : ks.Nodup)
    (hk : k0 ∈ ks) (a : Int) : (ks.map (fun k => if k0 = k then a else 0)).sum = a := by
  induction ks with
  | nil => simp at hk
  | cons k ks ih =>
    rw [List.nodup_cons] at hnd
    rcases List.mem_cons.mp hk with rfl | hmem
    · simp only [List.map_cons, List.sum_cons, sum_indicator_zero ks k0 hnd.1 a, add_zero]
      simp
    · have hne : ¬(k0 = k) := fun hh => hnd.1 (hh ▸ hmem)
      simp only [List.map_cons, List.sum_cons, if_neg hne, ih hnd.2 hmem, zero_add]

theorem sum_map_add_distrib {κ : Type} (ks : List κ) (f g : κ → Int) :
    (ks.map (fun k => f k + g k)).sum = (ks.map f).sum + (ks.map g).sum := by
  induction ks with
  | nil => rfl
  | cons k ks ih =>
    simp only [List.map_cons, List.sum_cons, ih]
    ring

theorem sum_map_filter_key {α κ : Type} [DecidableEq κ] (key : α → κ) (amt : α → Int)
    (ks : List κ) (l : List α) (hnd : ks.Nodup) (hcov : ∀ x ∈ l, key x ∈ ks) :
    (ks.map (fun k => ((l.filter (fun x => key x = k)).map amt).sum)).sum = (l.map amt).sum := by
  induction l with
  | nil => simp
  | cons x l ih =>
    have hx := hcov x (List.mem_cons_self _ _)
    have ih' := ih (fun y hy => hcov y (List.mem_cons_of_mem _ hy))
    have hsplit : ∀ k, ((List.filter (fun y => key y = k) (x :: l)).map amt).sum =
        (if key x = k then amt x else 0) + ((l.filter (fun y => key y = k)).map amt).sum := by
      intro k
      by_cases hk : key x = k
      · simp [List.filter_cons, hk]
      · simp [List.filter_cons, hk]
    calc (ks.map fun k => ((List.filter (fun y => key y = k) (x :: l)).map amt).sum).sum
        = (ks.map (fun k => (if key x = k then amt x else 0) +
            ((l.filter (fun y => key y = k)).map amt).sum)).sum := by
          exact congrArg List.sum (List.map_congr_left fun k _ => hsplit k)
      _ = (ks.map (fun k => if key x = k then amt x else 0)).sum +
            (ks.map (fun k => ((l.filter (fun y => key y = k)).map amt).sum)).sum :=
          sum_map_add_distrib ks _ _
      _ = amt x + (l.map amt).sum := by
          rw [sum_indicator_single ks (key x) hnd hx, ih']
      _ = ((x :: l).map amt).sum := by simp

theorem sum_catGroups (rows : List Expense) :
    ((catGroups rows).map (fun g => g.2.2)).sum = sumAmounts rows := by
  rw [catGroups, List.map_map]
  have hcomp : ((fun g : String × Nat × Int => g.2.2) ∘
      (fun c => (c, (rows.filter (·.category = c)).length,
        sumAmounts (rows.filter (·.category = c))))) =
      fun c => ((rows.filter (fun x => x.category = c)).map (fun r => r.amount)).sum := rfl
  rw [hcomp]
  have := sum_map_filter_key (fun r : Expense => r.category) (fun r => r.amount)
    (dedupKeys (rows.map (·.category))) rows (nodup_dedupKeys _)
    (fun x hx => mem_dedupKeys.mpr (List.mem_map_of_mem _ hx))
  simpa [sumAmounts] using this

theorem pairwise_take {α : Type} {R : α → α → Prop} {l : List α} (n : Nat)
    (h : l.Pairwise R) : (l.take n).Pairwise R :=
  h.sublist (List.take_sublist n l)

theorem sorted_head_rel {α : Type} {R : α → α → Prop} (hrefl : ∀ a, R a a) {l : List α}
    (h : l.Pairwise R) {b x : α} (hb : l.head? = some b) (hx : x ∈ l) : R b x := by
  cases l with
  | nil => simp at hb
  | cons a l =>
    obtain rfl : a = b := by simpa using hb
    rcases List.mem_cons.mp hx with rfl | hx
    · exact hrefl _
    · exact (List.pairwise_cons.mp h).1 x hx

theorem head?_take {α : Type} {l : List α} {n : Nat} (hn : 0 < n) :
    (l.take n).head? = l.head? := by
  cases l with
  | nil => simp
  | cons a l =>
    cases n with
    | zero => omega
    | succ n => simp [List.take]

/-- C10: `parse_date` returns the no-date value (`None`) for the absent
input and for the empty string rather than failing with `InvalidDate`,
and a record inserted with no date — any finite amount and category
within the schema's column bounds — gets the store's default (`now()`)
timestamp. -/
theorem claim_C10_empty_date_defaults :
    parse_date none = .ok none ∧ parse_date (some "") = .ok none ∧
    ∀ st q cat desc now, cat.length ≤ 120 → (toCents q).natAbs ≤ 999999999999 →
      add_expense st (.fin q) cat desc none now =
        some ⟨st.nextId + 1, st.rows ++ [⟨st.nextId, toCents q, cat, desc, now⟩]⟩ := by
  refine ⟨rfl, by decide, fun st q cat desc now hc ha => ?_⟩
  simp [add_expense, hc, ha, resolveCreated]

/-- Witness for C10: a concrete in-bounds no-date insert. -/
theorem claim_C10_witness :
    ("Food" : String).length ≤ 120 ∧ (toCents 5).natAbs ≤ 999999999999 ∧
    add_expense Store.empty (.fin 5) "Food" "d" none demoNow =
      some ⟨2, [⟨1, toCents 5, "Food", "d", demoNow⟩]⟩ := by
  refine ⟨by decide, by decide, ?_⟩
  have h := claim_C10_empty_date_defaults.2.2 Store.empty 5 "Food" "d" demoNow
    (by decide) (by decide)
  simpa [Store.empty] using h

/-- C3 (amended): exporting records whose `created_at` has whole-second
precision — and whose category and amount fit the schema's column bounds,
as every stored record's do — and re-importing the file (with header)
into a fresh store reconstructs the record set exactly in amount,
category, description and `created_at`, ignoring the store-assigned id,
and the import count equals the number of records.  Records with
fractional-second timestamps are excluded: their isoformat serialisation
parses under none of the accepted formats, so the import skips them. -/
theorem claim_C3_roundtrip (recs : List Expense) (now : DT)
    (h : ∀ r ∈ recs, ValidDT r.created_at ∧ r.created_at.us = 0 ∧
      r.category.length ≤ 120 ∧ r.amount.natAbs ≤ 999999999999) :
    ((import_from_csv (export_to_csv recs) true now Store.empty).1.rows).map stripFields =
      recs.map stripFields ∧
    (import_from_csv (export_to_csv recs) true now Store.empty).2 = recs.length := by
  have himp : import_from_csv (export_to_csv recs) true now Store.empty =
      importRows (some stdHeader) now (recs.map exportRow) Store.empty := rfl
  rw [himp, importRows_spec, filterMap_export recs h]
  refine ⟨?_, by simp⟩
  show (Store.empty.rows ++ buildRecs Store.empty.nextId now (recs.map expArgs)).map stripFields =
    recs.map stripFields
  rw [show Store.empty.rows = [] from rfl, List.nil_append,
    show Store.empty.nextId = 1 from rfl, buildRecs_expArgs_strip]

/-- Witness for C3 (amended) at a concrete one-record store. -/
theorem claim_C3_witness :
    (∀ r ∈ ([⟨7, 1250, "Food", "lunch", ⟨2024, 3, 5, 12, 30, 0, 0⟩⟩] : List Expense),
      ValidDT r.created_at ∧ r.created_at.us = 0 ∧
      r.category.length ≤ 120 ∧ r.amount.natAbs ≤ 999999999999) ∧
    (((import_from_csv
        (export_to_csv [⟨7, 1250, "Food", "lunch", ⟨2024, 3, 5, 12, 30, 0, 0⟩⟩]) true demoNow
        Store.empty).1.rows).map stripFields =
      ([⟨7, 1250, "Food", "lunch", ⟨2024, 3, 5, 12, 30, 0, 0⟩⟩] : List Expense).map stripFields ∧
     (import_from_csv
        (export_to_csv [⟨7, 1250, "Food", "lunch", ⟨2024, 3, 5, 12, 30, 0, 0⟩⟩]) true demoNow
        Store.empty).2 =
      ([⟨7, 1250, "Food", "lunch", ⟨2024, 3, 5, 12, 30, 0, 0⟩⟩] : List Expense).length) :=
  ⟨by decide, claim_C3_roundtrip _ demoNow (by decide)⟩

/-- C3 counterexample: a record whose `created_at` carries microseconds is
exported with a fractional-second isoformat value that no accepted import
format parses, so the row is skipped on re-import: the round trip loses
the record instead of reconstructing it. -/
theorem claim_C3_cex :
    (import_from_csv (export_to_csv [demoRecUs]) true demoNow Store.empty).1.rows = [] ∧
    (import_from_csv (export_to_csv [demoRecUs]) true demoNow Store.empty).2 = 0 := by decide

set_option maxHeartbeats 1000000 in
/-- C6 (amended): `summary_by_period` of src/expense_tracker.py groups by
the period-truncated `created_at`, orders buckets most recent period
first, truncates to `limit`, and each bucket carries the exact count and
sum of its records; with a positive limit on a nonempty store the first
bucket is the most recent period.  (The `summary` of
src/expense_tracker2.py instead returns month buckets oldest-first with
no limit — see the counterexample.) -/
theorem claim_C6_summary_period (period : String) (limit : Nat) (st : Store)
    (out : List (DT × Nat × Int))
    (hp : period = "month" ∨ period = "week")
    (h : summary_by_period period limit st = .ok out) :
    out.Pairwise periodDescRel ∧ out.length ≤ limit ∧
    (∀ b ∈ out, b.2.1 = (st.rows.filter (fun r => periodTrunc period r.created_at = b.1)).length ∧
      b.2.2 = sumAmounts (st.rows.filter (fun r => periodTrunc period r.created_at = b.1))) ∧
    (st.rows ≠ [] → 0 < limit → ∃ b, out.head? = some b ∧
      ∀ r ∈ st.rows, dtKey (periodTrunc period r.created_at) ≤ dtKey b.1) := by
  have hout : out = (List.insertionSort periodDescRel (periodGroups period st.rows)).take limit := by
    rw [summary_by_period, if_pos hp] at h
    exact (Except.ok.inj h).symm
  subst hout
  have hsorted : (List.insertionSort periodDescRel (periodGroups period st.rows)).Pairwise
      periodDescRel := List.sorted_insertionSort _ _
  refine ⟨pairwise_take _ hsorted, by rw [List.length_take]; omega, ?_, ?_⟩
  · intro b hb
    have hb2 : b ∈ periodGroups period st.rows :=
      (List.mem_insertionSort _).mp (List.mem_of_mem_take hb)
    rw [periodGroups] at hb2
    rcases List.mem_map.mp hb2 with ⟨p, _, rfl⟩
    exact ⟨rfl, rfl⟩
  · intro hne hlim
    have hgne : periodGroups period st.rows ≠ [] := by
      rw [periodGroups]
      intro hmapnil
      exact dedupKeys_ne_nil (by simpa using hne) (List.map_eq_nil_iff.mp hmapnil)
    have hsne : List.insertionSort periodDescRel (periodGroups period st.rows) ≠ [] := by
      intro hnil
      have := (List.perm_insertionSort periodDescRel (periodGroups period st.rows)).length_eq
      rw [hnil] at this
      exact hgne (List.length_eq_zero.mp this.symm)
    obtain ⟨b0, rest, hsortcons⟩ :=
      List.exists_cons_of_ne_nil hsne
    refine ⟨b0, by rw [head?_take hlim, hsortcons]; rfl, ?_⟩
    intro r hr
    have hkmem : periodTrunc period r.created_at ∈
        dedupKeys (st.rows.map (fun x => periodTrunc period x.created_at)) :=
      mem_dedupKeys.mpr (List.mem_map_of_mem _ hr)
    have hgmem : (periodTrunc period r.created_at,
        (st.rows.filter (fun x =>
          periodTrunc period x.created_at = periodTrunc period r.created_at)).length,
        sumAmounts (st.rows.filter (fun x =>
          periodTrunc period x.created_at = periodTrunc period r.created_at))) ∈
        periodGroups period st.rows := by
      rw [periodGroups]
      exact List.mem_map_of_mem _ hkmem
    have hsmem := (List.mem_insertionSort periodDescRel).mpr hgmem
    have hhead : (List.insertionSort periodDescRel (periodGroups period st.rows)).head? =
        some b0 := by
      rw [hsortcons]
      rfl
    have hrefl : ∀ a : DT × Nat × Int, periodDescRel a a := fun a => Nat.le_refl (dtKey a.1)
    have hfin := sorted_head_rel (R := periodDescRel) hrefl hsorted hhead hsmem
    exact hfin

/-- Witness for C6 (amended): limit 1 on records spanning two months
yields exactly the most recent month's bucket. -/
theorem claim_C6_witness :
    ("month" = "month" ∨ "month" = "week") ∧
    summary_by_period "month" 1 demoStoreC6 = .ok [(⟨2024, 2, 1, 0, 0, 0, 0⟩, 1, 2000)] ∧
    ([(⟨2024, 2, 1, 0, 0, 0, 0⟩, 1, 2000)] : List (DT × Nat × Int)).Pairwise periodDescRel ∧
    ([(⟨2024, 2, 1, 0, 0, 0, 0⟩, 1, 2000)] : List (DT × Nat × Int)).length ≤ 1 :=
  ⟨Or.inl rfl, by decide,
   (claim_C6_summary_period "month" 1 demoStoreC6 _ (Or.inl rfl) (by decide)).1,
   (claim_C6_summary_period "month" 1 demoStoreC6 _ (Or.inl rfl) (by decide)).2.1⟩

/-- C6 counterexample: `summary` of src/expense_tracker2.py returns the
two-month store's buckets oldest month first and unbounded — its first
bucket is January, the less recent period, and the function has no
`periodKind`/`limit` parameters — contradicting the claimed
most-recent-first, limit-truncated contract for every byPeriod
implementation. -/
theorem claim_C6_cex :
    summary2 demoStoreC6 = [("Jan-2024", 1, 1000), ("Feb-2024", 1, 2000)] ∧
    dtKey (truncMonth ⟨2024, 1, 5, 0, 0, 0, 0⟩) < dtKey (truncMonth ⟨2024, 2, 5, 0, 0, 0, 0⟩) := by
  decide

/-- C9: with no filters, and limits large enough for both operations to
return everything, the `category_report` totals summed over all
categories equal the summed amounts of the records the unfiltered
`query_expenses` scan returns — grouping neither loses nor double-counts
any record, in exact (integer-cent) arithmetic. -/
theorem claim_C9_totals_conserved (st : Store) (limit1 limit2 : Nat)
    (out : List (String × Nat × Int)) (q : List Expense)
    (h1 : (catGroups st.rows).length ≤ limit1)
    (h2 : st.rows.length ≤ limit2)
    (hrel : CatReportRel st none none limit1 out)
    (hq : query_expenses st limit2 none none none = .ok q) :
    (out.map (fun g => g.2.2)).sum = sumAmounts q := by
  have hfilter : ∀ rows : List Expense, rows.filter (matchesFilters none none none) = rows := by
    intro rows
    rw [List.filter_eq_self]
    intro r _
    rfl
  obtain ⟨rows, sorted, hfr, hperm, hsorted, hout⟩ := hrel
  have hfr2 : filteredRows st none none = .ok (st.rows.filter (matchesFilters none none none)) :=
    rfl
  have hrows : rows = st.rows := by
    have := Except.ok.inj (hfr2.symm.trans hfr)
    rw [hfilter] at this
    exact this.symm
  subst hrows
  have hqc : query_expenses st limit2 none none none =
      .ok ((sortNewestFirst (st.rows.filter (matchesFilters none none none))).take limit2) := rfl
  have hq2 : q = (sortNewestFirst st.rows).take limit2 := by
    have := Except.ok.inj (hqc.symm.trans hq)
    rw [hfilter] at this
    exact this.symm
  have hlen2 : (sortNewestFirst st.rows).length ≤ limit2 := by
    rw [sortNewestFirst, List.length_insertionSort]
    exact h2
  have hqall : q = sortNewestFirst st.rows := by
    rw [hq2, List.take_of_length_le hlen2]
  have hsumq : sumAmounts q = sumAmounts st.rows := by
    rw [hqall, sumAmounts, sumAmounts]
    exact List.Perm.sum_eq ((List.perm_insertionSort laterRel st.rows).map _)
  have houtall : out = sorted := by
    rw [hout, List.take_of_length_le (by rw [← hperm.length_eq]; exact h1)]
  have hsumout : (out.map (fun g => g.2.2)).sum =
      ((catGroups st.rows).map (fun g => g.2.2)).sum := by
    rw [houtall]
    exact (List.Perm.sum_eq (hperm.map _)).symm
  rw [hsumout, sum_catGroups, hsumq]

/-- Witness for C9 at a concrete two-category store. -/
theorem claim_C9_witness :
    (catGroups demoStoreC5.rows).length ≤ 100 ∧ demoStoreC5.rows.length ≤ 100 ∧
    CatReportRel demoStoreC5 none none 100 [("beta", 1, 500), ("alpha", 1, 500)] ∧
    query_expenses demoStoreC5 100 none none none =
      .ok [⟨2, 500, "alpha", "", ⟨2024, 1, 6, 0, 0, 0, 0⟩⟩,
           ⟨1, 500, "beta", "", ⟨2024, 1, 5, 0, 0, 0, 0⟩⟩] ∧
    (([("beta", 1, 500), ("alpha", 1, 500)] : List (String × Nat × Int)).map
      (fun g => g.2.2)).sum =
      sumAmounts [⟨2, 500, "alpha", "", ⟨2024, 1, 6, 0, 0, 0, 0⟩⟩,
        ⟨1, 500, "beta", "", ⟨2024, 1, 5, 0, 0, 0, 0⟩⟩] := by
  have hrel : CatReportRel demoStoreC5 none none 100 [("beta", 1, 500), ("alpha", 1, 500)] :=
    ⟨demoStoreC5.rows, [("beta", 1, 500), ("alpha", 1, 500)], by decide, by decide, by decide,
      by decide⟩
  refine ⟨by decide, by decide, hrel, by decide, ?_⟩
  exact claim_C9_totals_conserved demoStoreC5 100 100 _ _ (by decide) (by decide) hrel (by decide)
